import Mathlib

/-!
# Verification of the dtd-to-go DTD-to-struct generator

A shallow embedding of the two core Go files of the repository:
`dtd_parser.go` (embedded in the README of the repository) and
`struct_generator.go`.  Go strings are modelled as `List Char` and Go maps
as association lists with first-key-wins lookup and in-place update, which
matches Go map semantics extensionally (Go map iteration order is only used
where the result is order-independent: attaching accumulated attributes to
their elements key by key).

String helpers named `go...` each model one function of the Go `strings`
package (restricted to the ASCII character classes that DTD input uses).
-/

namespace DtdToGo

/-- Go strings, modelled as lists of characters. -/
abbrev Str := List Char

/-- Literal notation helper: a Lean string literal as a `Str`. -/
def str (s : String) : Str := s.toList

/-- `unicode.IsSpace` restricted to ASCII (what `strings.TrimSpace`,
`strings.Fields` split on). -/
def isSpaceChar (c : Char) : Bool :=
  c = ' ' || c = '\t' || c = '\n' || c = '\r' || c = '\x0b' || c = '\x0c'

/-- `strings.TrimSpace`. -/
def goTrimSpace (s : Str) : Str :=
  ((s.dropWhile isSpaceChar).reverse.dropWhile isSpaceChar).reverse

/-- `strings.HasPrefix s pre` (own recursion, so that lemmas are easy). -/
def goStartsWith : Str → Str → Bool
  | _, [] => true
  | [], _ :: _ => false
  | c :: s, d :: p => c = d && goStartsWith s p

/-- `strings.HasSuffix s suf`. -/
def goEndsWith (s suf : Str) : Bool :=
  goStartsWith s.reverse suf.reverse

/-- `strings.TrimPrefix`. -/
def goStripStart (s pre : Str) : Str :=
  if goStartsWith s pre then s.drop pre.length else s

/-- `strings.TrimSuffix`. -/
def goStripEnd (s suf : Str) : Str :=
  if goEndsWith s suf then s.take (s.length - suf.length) else s

/-- `strings.Trim s cutset`: remove leading and trailing characters that
occur in `cut`. -/
def goTrimCut (s cut : Str) : Str :=
  ((s.dropWhile (fun c => cut.contains c)).reverse.dropWhile
      (fun c => cut.contains c)).reverse

/-- `strings.Contains s sub`. -/
def goContains : Str → Str → Bool
  | [], sub => sub.isEmpty
  | s@(_ :: t), sub => goStartsWith s sub || goContains t sub

/-- Split a list at every element satisfying `p` (separators removed,
empty segments kept), the splitting primitive behind `strings.FieldsFunc`
and the single-character-class `regexp.Split` calls of the source. -/
def splitOnPred (p : Char → Bool) : Str → List Str
  | [] => [[]]
  | c :: t =>
    if p c then [] :: splitOnPred p t
    else
      match splitOnPred p t with
      | [] => [[c]]
      | h :: r => (c :: h) :: r

/-- `strings.FieldsFunc`: split on `p`, dropping empty segments. -/
def goFieldsBy (p : Char → Bool) (s : Str) : List Str :=
  (splitOnPred p s).filter (fun w => !w.isEmpty)

/-- `strings.Fields`: whitespace-separated fields. -/
def goFields (s : Str) : List Str := goFieldsBy isSpaceChar s

/-- `strings.ToUpper` (ASCII). -/
def goToUpper (s : Str) : Str := s.map Char.toUpper

/-- Association-list lookup, modelling Go map read `m[k]`. -/
def mapGet {α : Type} : List (Str × α) → Str → Option α
  | [], _ => none
  | (k', v) :: t, k => if k' = k then some v else mapGet t k

/-- Association-list update, modelling Go map write `m[k] = v`. -/
def mapSet {α : Type} : List (Str × α) → Str → α → List (Str × α)
  | [], k, v => [(k, v)]
  | (k', v') :: t, k, v =>
    if k' = k then (k', v) :: t else (k', v') :: mapSet t k v

/-! ## The parser's data model (`dtd_parser.go`) -/

/-- `DTDAttribute` of the source (`Type` is rendered `attrType` because
`Type` is reserved in Lean). -/
structure DTDAttribute where
  name : Str
  attrType : Str
  defaultValue : Str
  required : Bool
deriving DecidableEq

/-- `DTDElement` of the source. -/
structure DTDElement where
  name : Str
  content : Str
  attributes : List DTDAttribute
deriving DecidableEq

/-- `DTDParser` of the source: its four maps/lists of mutable state. -/
structure DTDParser where
  elements : List (Str × DTDElement)
  attributes : List (Str × List DTDAttribute)
  elementOrder : List Str
  entities : List (Str × Str)
deriving DecidableEq

/-- `NewDTDParser()`. -/
def emptyParser : DTDParser := ⟨[], [], [], []⟩

/-- `ParseResult` of the source. -/
structure ParseResult where
  elements : List (Str × DTDElement)
  order : List Str
deriving DecidableEq

/-! ## The two regular expressions of the parser

`parseElement` matches `<!ELEMENT\s+([\w-]+)\s+(.+?)>` and `parseEntity`
matches `<!ENTITY\s+%\s+(\w+)\s+"(.+?)">`, both with Go (RE2) leftmost
semantics and PCRE-style submatch choice.  In both patterns every pair of
adjacent character classes except `\s+`/lazy-dot is disjoint, so the
greedy pieces match maximal runs; the only backtracking interaction is
that a final failure lets `\s+` before the lazy `(.+?)` give up trailing
whitespace characters to the dot.  The element matcher below implements
exactly that: whitespace count `i` is tried from its maximal value
downwards, and for each `i` the terminating `>` is searched left to
right. -/

/-- `\w` (ASCII): letters, digits, underscore. -/
def isWordChar (c : Char) : Bool := c.isAlpha || c.isDigit || c = '_'

/-- `[\w-]`. -/
def isWordHyphen (c : Char) : Bool := isWordChar c || c = '-'

/-- `.` of the regexes: any character except newline. -/
def dotOk (w : Str) : Bool := w.all (fun c => c ≠ '\n')

/-- Ascending positions of character `c` in `t`. -/
def charPositions (c : Char) (t : Str) : List Nat :=
  (List.range t.length).filter (fun k => t.getD k ' ' = c)

/-- For fixed whitespace count `i`, find the leftmost end position `g ∈ gs`
with `g ≥ i + 1` whose content window contains no newline. -/
def tryContentEnd (t : Str) (i : Nat) : List Nat → Option (Nat × Nat)
  | [] => none
  | g :: rest =>
    if i + 1 ≤ g && dotOk ((t.drop i).take (g - i)) then some (i, g)
    else tryContentEnd t i rest

/-- Try whitespace counts `i, i-1, …, 1` in that order (greedy `\s+`
backtracking before a lazy `(.+?)`). -/
def tryWsCount (t : Str) (gs : List Nat) : Nat → Option (Nat × Nat)
  | 0 => none
  | i + 1 =>
    match tryContentEnd t (i + 1) gs with
    | some r => some r
    | none => tryWsCount t gs i

/-- Match `<!ELEMENT\s+([\w-]+)\s+(.+?)>` anchored at the start of `s`,
returning the two submatches (name, raw content). -/
def matchElementAt (s : Str) : Option (Str × Str) :=
  if goStartsWith s (str "<!ELEMENT") then
    let t0 := s.drop 9
    let ws1 := t0.takeWhile isSpaceChar
    if ws1.isEmpty then none
    else
      let t1 := t0.drop ws1.length
      let name := t1.takeWhile isWordHyphen
      if name.isEmpty then none
      else
        let t := t1.drop name.length
        let maxWs := (t.takeWhile isSpaceChar).length
        match tryWsCount t (charPositions '>' t) maxWs with
        | some (i, g) => some (name, (t.drop i).take (g - i))
        | none => none
  else none

/-- Leftmost match of the ELEMENT regex anywhere in the line. -/
def findElementMatch : Str → Option (Str × Str)
  | [] => none
  | s@(_ :: t) =>
    match matchElementAt s with
    | some r => some r
    | none => findElementMatch t

/-- Find the leftmost `k ∈ ks` (candidate end of the lazy `(.+?)`) with
`k ≥ 1` whose window from position `start` contains no newline; used for
the ENTITY regex, where the value ends at the two-character suffix
`">`. -/
def tryValueEnd (t : Str) : List Nat → Option Nat
  | [] => none
  | k :: rest =>
    if 1 ≤ k && dotOk (t.take k) then some k
    else tryValueEnd t rest

/-- Ascending positions `k` in `t` with `t[k] = '"'` and `t[k+1] = '>'`. -/
def quoteGtPositions (t : Str) : List Nat :=
  (List.range t.length).filter (fun k => t.getD k ' ' = '"' && t.getD (k + 1) '?' = '>')

/-- Match `<!ENTITY\s+%\s+(\w+)\s+"(.+?)">` anchored at the start of `s`,
returning the two submatches (entity name, entity value). -/
def matchEntityAt (s : Str) : Option (Str × Str) :=
  if goStartsWith s (str "<!ENTITY") then
    let t0 := s.drop 8
    let ws1 := t0.takeWhile isSpaceChar
    if ws1.isEmpty then none
    else
      let t1 := t0.drop ws1.length
      match t1 with
      | '%' :: t2 =>
        let ws2 := t2.takeWhile isSpaceChar
        if ws2.isEmpty then none
        else
          let t3 := t2.drop ws2.length
          let name := t3.takeWhile isWordChar
          if name.isEmpty then none
          else
            let t4 := t3.drop name.length
            let ws3 := t4.takeWhile isSpaceChar
            if ws3.isEmpty then none
            else
              match t4.drop ws3.length with
              | '"' :: t =>
                match tryValueEnd t (quoteGtPositions t) with
                | some k => some (name, t.take k)
                | none => none
              | _ => none
      | _ => none
  else none

/-- Leftmost match of the ENTITY regex anywhere in the line. -/
def findEntityMatch : Str → Option (Str × Str)
  | [] => none
  | s@(_ :: t) =>
    match matchEntityAt s with
    | some r => some r
    | none => findEntityMatch t

/-! ## The parser (`dtd_parser.go`) -/

/-- `parseEntity`: record a parameter entity `name → value`. -/
def parseEntity (p : DTDParser) (line : Str) : DTDParser :=
  match findEntityMatch line with
  | some (entityName, entityValue) =>
    { p with entities := mapSet p.entities entityName entityValue }
  | none => p

/-- `parseElement`: record/replace an element's content model; append the
name to the declaration order only the first time it is seen. -/
def parseElement (p : DTDParser) (line : Str) : DTDParser :=
  match findElementMatch line with
  | some (name, rawContent) =>
    let content := goTrimSpace rawContent
    let p1 :=
      if (mapGet p.elements name).isSome then p
      else { p with elementOrder := p.elementOrder ++ [name] }
    { p1 with elements := mapSet p1.elements name ⟨name, content, []⟩ }
  | none => p

/-- The shared default-spec interpretation of the source: `#REQUIRED` sets
the required flag, `#IMPLIED` leaves the attribute untouched, anything
else becomes the quote-stripped literal default value. -/
def applyDefaultInfo (attr : DTDAttribute) (defaultInfo : Str) : DTDAttribute :=
  if defaultInfo = str "#REQUIRED" then { attr with required := true }
  else if defaultInfo = str "#IMPLIED" then attr
  else { attr with defaultValue := goTrimCut defaultInfo (str "\"") }

/-- `parseEntityValue`: the simplified 3-field extraction applied to an
entity value's whitespace-split tokens.  `typeEnd` is the index of the
first token containing `)` (or `-1`, as in the Go code, when there is
none), and the default-spec token is the one right after it (the empty
string when that index is out of range). -/
def parseEntityValue (entityValue : Str) (attributes : List DTDAttribute) :
    List DTDAttribute :=
  let parts := goFields entityValue
  if parts.length < 3 then attributes
  else
    let attrName := parts.getD 0 []
    let typeEnd : Int :=
      match parts.findIdx? (fun part => goContains part (str ")")) with
      | some k => (k : Int)
      | none => -1
    let defaultInfo : Str :=
      if typeEnd + 1 < (parts.length : Int) then parts.getD (typeEnd + 1).toNat []
      else []
    attributes ++ [applyDefaultInfo ⟨attrName, str "string", [], false⟩ defaultInfo]

/-- The inner scan of `parseAttributeList` over a parenthesized enumerated
type: starting at token `j` with running count `parenCount`, walk forward
until the count returns to zero on a token containing `)` (or until the
tokens run out).  `fuel` bounds the walk; callers pass enough fuel for the
whole token list. -/
def parenDelta (tok : Str) (c0 : Int) : Int :=
  tok.foldl (fun n ch => if ch = '(' then n + 1 else if ch = ')' then n - 1 else n) c0

def scanParen (parts : List Str) : Int → Nat → Nat → Nat
  | _, j, 0 => j
  | parenCount, j, fuel + 1 =>
    if j < parts.length then
      let c := parenDelta (parts.getD j []) parenCount
      if c = 0 && goContains (parts.getD j []) (str ")") then j
      else scanParen parts c (j + 1) fuel
    else j

/-- The token-walking loop of `parseAttributeList`.  The loop index `i`
advances by a variable amount per iteration; `fuel` (one unit per
iteration) makes the recursion structural, and callers pass
`parts.length + 1`, which is enough because `i` strictly increases. -/
def attrLoop (ents : List (Str × Str)) (parts : List Str) :
    Nat → Nat → List DTDAttribute → List DTDAttribute
  | 0, _, acc => acc
  | fuel + 1, i, acc =>
    if i < parts.length then
      let tok := parts.getD i []
      if goStartsWith tok (str "%") && goEndsWith tok (str ";") then
        let entityName := goStripEnd (goStripStart tok (str "%")) (str ";")
        match mapGet ents entityName with
        | some entityValue =>
          attrLoop ents parts fuel (i + 1) (parseEntityValue entityValue acc)
        | none => attrLoop ents parts fuel (i + 1) acc
      else if i + 2 < parts.length then
        let attrType := parts.getD (i + 1) []
        let defaultInfo := parts.getD (i + 2) []
        if goContains attrType (str "(") then
          let j := scanParen parts 0 (i + 1) (parts.length + 1)
          let acc' :=
            if j + 1 < parts.length then
              acc ++ [applyDefaultInfo ⟨tok, str "string", [], false⟩ (parts.getD (j + 1) [])]
            else acc
          attrLoop ents parts fuel (j + 2) acc'
        else
          attrLoop ents parts fuel (i + 3)
            (acc ++ [applyDefaultInfo ⟨tok, attrType, [], false⟩ defaultInfo])
      else attrLoop ents parts fuel (i + 1) acc
    else acc

/-- The element name and parsed attribute list of one `<!ATTLIST>` line
(`none` when the line has no tokens after the keyword). -/
def attlistInfo (p : DTDParser) (line : Str) : Option (Str × List DTDAttribute) :=
  let content := goTrimSpace (goStripEnd (goStripStart line (str "<!ATTLIST")) (str ">"))
  match goFields content with
  | [] => none
  | elementName :: rest =>
    some (elementName, attrLoop p.entities rest (rest.length + 1) 0 [])

/-- `parseAttributeList`: parse the attribute definitions of the line and
append them to the attributes already recorded for that element. -/
def parseAttributeList (p : DTDParser) (line : Str) : DTDParser :=
  match attlistInfo p line with
  | none => p
  | some (elementName, attributes) =>
    { p with
      attributes :=
        mapSet p.attributes elementName
          ((mapGet p.attributes elementName).getD [] ++ attributes) }

/-- `parseLine`: dispatch one complete declaration by leading keyword. -/
def parseLine (p : DTDParser) (line0 : Str) : DTDParser :=
  let line := goTrimSpace line0
  if goStartsWith line (str "<!ENTITY") then parseEntity p line
  else if goStartsWith line (str "<!ELEMENT") then parseElement p line
  else if goStartsWith line (str "<!ATTLIST") then parseAttributeList p line
  else p

/-! ## The scanner loop of `ParseFile` -/

/-- The scanner state: the parser plus the `currentLine` reassembly
buffer. -/
structure ScanState where
  parser : DTDParser
  buf : Str
deriving DecidableEq

/-- One iteration of the `scanner.Scan()` loop of `ParseFile`. -/
def scanStep (st : ScanState) (rawLine : Str) : ScanState :=
  let line := goTrimSpace rawLine
  if line.isEmpty || goStartsWith line (str "<!--") then st
  else
    let buf := st.buf ++ line ++ [' ']
    if goEndsWith line (str ">") &&
        (goContains buf (str "<!ELEMENT") || goContains buf (str "<!ATTLIST") ||
          goContains buf (str "<!ENTITY")) then
      ⟨parseLine st.parser (goTrimSpace buf), []⟩
    else ⟨st.parser, buf⟩

/-- The whole scanner loop. -/
def scanLines (st : ScanState) (lines : List Str) : ScanState :=
  lines.foldl scanStep st

/-- The attribute-attachment pass at the end of `ParseFile`: for every
element that has accumulated attributes, set them (Go iterates the
attributes map, which is the same per-key update). -/
def attachAttributes (p : DTDParser) : List (Str × DTDElement) :=
  p.elements.map (fun kv =>
    (kv.1,
      match mapGet p.attributes kv.1 with
      | some attrs => { kv.2 with attributes := attrs }
      | none => kv.2))

/-- `bufio.ScanLines`' per-line carriage-return stripping. -/
def dropCR (l : Str) : Str :=
  if goEndsWith l (str "\r") then l.take (l.length - 1) else l

/-- Split the input text into scanner lines.  `bufio.Scanner` with
`ScanLines` yields the text between newlines with a trailing `\r`
stripped, and yields no final empty token when the text ends with a
newline. -/
def toLines (text : Str) : List Str :=
  let ls := (text.splitOn '\n').map dropCR
  if ls.getLast? = some [] then ls.dropLast else ls

/-- `ParseFile` on the already-read list of lines (file I/O errors are the
only error path of the Go function and are outside the pure model). -/
def parseDTD (lines : List Str) : ParseResult :=
  let st := scanLines ⟨emptyParser, []⟩ lines
  ⟨attachAttributes st.parser, st.parser.elementOrder⟩

/-- `ParseFile` on raw text. -/
def parseDTDText (text : Str) : ParseResult :=
  parseDTD (toLines text)

/-! ## The generator (`struct_generator.go`) -/

/-- `StructGenerator`. -/
structure StructGenerator where
  packageName : Str
  elements : List (Str × DTDElement)
  elementOrder : List Str
deriving DecidableEq

/-- `isSimpleElement`: should this element be a plain string field? -/
def isSimpleElement (g : StructGenerator) (elementName : Str) : Bool :=
  match mapGet g.elements elementName with
  | none => true
  | some element =>
    let content := goTrimSpace element.content
    if content = str "( #PCDATA )" || content = str "#PCDATA" || content = str "EMPTY" then
      true
    else if element.attributes.length = 0 &&
        (content = str "( #PCDATA )" || goContains content (str "#PCDATA")) then
      true
    else false

/-- `canContainText`. -/
def canContainText (content : Str) : Bool := goContains content (str "#PCDATA")

/-- `strings.Title` (ASCII): uppercase every letter that begins a word,
i.e. whose predecessor is not a letter. -/
def goTitleAux : Bool → Str → Str
  | _, [] => []
  | prevLetter, c :: t =>
    (if c.isAlpha && !prevLetter then c.toUpper else c) :: goTitleAux c.isAlpha t

def goTitle (s : Str) : Str := goTitleAux false s

/-- Uppercase the first character (the `runes[0]` step of
`toGoFieldName`). -/
def upperFirst : Str → Str
  | [] => []
  | c :: t => c.toUpper :: t

/-- `toGoStructName`: split on `-`/`_`, `strings.Title` each word,
concatenate; fall back to `Element` when empty. -/
def toGoStructName (name : Str) : Str :=
  let words := goFieldsBy (fun c => c = '-' || c = '_') name
  let s := (words.map goTitle).flatten
  if s.isEmpty then str "Element" else s

/-- `toGoFieldName`: split on `-`/`_`, uppercase each word's first letter,
concatenate; fall back to `Field` when empty. -/
def toGoFieldName (name : Str) : Str :=
  let words := goFieldsBy (fun c => c = '-' || c = '_') name
  let s := (words.map upperFirst).flatten
  if s.isEmpty then str "Field" else s

/-- `getGoType`. -/
def getGoType (dtdType : Str) : Str :=
  let u := goToUpper dtdType
  if u = str "CDATA" || u = str "ID" || u = str "IDREF" || u = str "NMTOKEN" then str "string"
  else if u = str "IDREFS" || u = str "NMTOKENS" then str "[]string"
  else str "string"

/-- `getXMLTag`. -/
def getXMLTag (name : Str) (required isAttribute : Bool) : Str :=
  let tag := if isAttribute then name ++ str ",attr" else name
  if !required then tag ++ str ",omitempty" else tag

/-! ### `parseContentModel` -/

/-- The split on the `[,|]` character class. -/
def splitCommaBar (s : Str) : List Str :=
  splitOnPred (fun c => c = ',' || c = '|') s

/-- Per-part name extraction of `parseContentModel`: trim, strip the
occurrence indicators `+*?`, strip stray parens, trim again, and (when the
part survives the `#PCDATA`/`%` guards) split into whitespace fields, each
cleaned of `+*?(),` characters. -/
def extractSubParts (part0 : Str) : List Str :=
  let part1 := goTrimSpace part0
  let part2 := part1.filter (fun c => !(c = '+' || c = '*' || c = '?'))
  let part3 := goTrimCut part2 (str "()")
  let part := goTrimSpace part3
  if !part.isEmpty && !goContains part (str "#PCDATA") && !goContains part (str "%") then
    (goFields part).filterMap (fun subPart0 =>
      let subPart :=
        goTrimSpace (subPart0.filter (fun c =>
          !(c = '+' || c = '*' || c = '?' || c = '(' || c = ')' || c = ',')))
      if !subPart.isEmpty && !goContains subPart (str "#PCDATA") then some subPart
      else none)
  else []

/-- The child-name list extracted from a (non-EMPTY/ANY/PCDATA/entity)
content model: strip a recognised group-level repetition suffix, strip
outer parens, split on `,`/`|` and clean each part. -/
def contentModelChildNames (content : Str) : List Str :=
  let original := goTrimSpace content
  let groupRepeating :=
    goEndsWith original (str ")*") || goEndsWith original (str ")+")
  let content1 :=
    if groupRepeating && (goEndsWith content (str ")*") || goEndsWith content (str ")+")) then
      content.take (content.length - 2)
    else content
  let content2 := goTrimSpace (goTrimCut content1 (str "()"))
  (splitCommaBar content2).flatMap extractSubParts

/-- One derived content field, before rendering: the child element name,
whether the field is a slice, and whether the child is simple. -/
structure ContentField where
  childName : Str
  isSlice : Bool
  isSimple : Bool
deriving DecidableEq

/-- The deduplicating field-emission loop of `parseContentModel`:
first-seen order, one field per unique name, slice-ness decided from the
original expression. -/
def dedupFields (g : StructGenerator) (original : Str) (groupRepeating : Bool) :
    List Str → List Str → List ContentField
  | _, [] => []
  | seen, n :: rest =>
    if n ∈ seen then dedupFields g original groupRepeating seen rest
    else
      { childName := n,
        isSlice :=
          groupRepeating || goContains original (n ++ str "*") ||
            goContains original (n ++ str "+") || goContains original (str "|"),
        isSimple := isSimpleElement g n } ::
        dedupFields g original groupRepeating (n :: seen) rest

/-- The structured content fields of a content model (the last branch of
`parseContentModel`). -/
def parseContentModelFields (g : StructGenerator) (content : Str) : List ContentField :=
  let original := goTrimSpace content
  let groupRepeating :=
    goEndsWith original (str ")*") || goEndsWith original (str ")+")
  dedupFields g original groupRepeating [] (contentModelChildNames content)

/-- Render one content field exactly as the Go `fmt.Sprintf` calls do. -/
def renderContentField (f : ContentField) : Str :=
  let fieldName := toGoFieldName f.childName
  let structType := toGoStructName f.childName
  if f.isSimple then
    if f.isSlice then
      fieldName ++ str " []string `xml:\"" ++ f.childName ++ str ",omitempty\"`"
    else
      fieldName ++ str " *string `xml:\"" ++ f.childName ++ str ",omitempty\"`"
  else
    if f.isSlice then
      fieldName ++ str " []" ++ structType ++ str " `xml:\"" ++ f.childName ++
        str ",omitempty\"`"
    else
      fieldName ++ str " *" ++ structType ++ str " `xml:\"" ++ f.childName ++
        str ",omitempty\"`"

/-- `parseContentModel`: the EMPTY/ANY/PCDATA/entity guards, then the
rendered child fields. -/
def parseContentModel (g : StructGenerator) (content : Str) : List Str :=
  if content = str "EMPTY" then []
  else if content = str "ANY" then [str "Content string `xml:\",innerxml\"`"]
  else if goContains content (str "#PCDATA") then []
  else if goContains content (str "%") then []
  else (parseContentModelFields g content).map renderContentField

/-! ### `generateStruct` and `GenerateStructs` -/

/-- The rendered field of one attribute declaration. -/
def attrFieldLine (attr : DTDAttribute) : Str :=
  toGoFieldName attr.name ++ [' '] ++ getGoType attr.attrType ++ str " `xml:\"" ++
    getXMLTag attr.name attr.required true ++ str "\"`"

/-- The body lines of one generated struct, in emission order: identity
tag, attribute fields, content fields, optional trailing text field. -/
def structBodyLines (g : StructGenerator) (element : DTDElement) : List Str :=
  (str "XMLName xml.Name `xml:\"" ++ element.name ++ str "\"`") ::
    (element.attributes.map attrFieldLine ++ parseContentModel g element.content ++
      (if canContainText element.content then [str "Text string `xml:\",chardata\"`"]
       else []))

/-- `generateStruct`: comment, type header, tab-indented body lines,
closing brace. -/
def generateStruct (g : StructGenerator) (element : DTDElement) : Str :=
  str "// " ++ toGoStructName element.name ++ str " represents the <" ++ element.name ++
    str "> element\n" ++
    str "type " ++ toGoStructName element.name ++ str " struct \x7b\n" ++
    (structBodyLines g element).flatMap (fun l => '\t' :: (l ++ ['\n'])) ++
    str "\x7d"

/-- The output contributed by one name of the declaration order: nothing
for names without a declaration or classified simple, otherwise the
struct followed by a newline. -/
def emitFor (g : StructGenerator) (elementName : Str) : Str :=
  match mapGet g.elements elementName with
  | some element =>
    if isSimpleElement g elementName then [] else generateStruct g element ++ ['\n']
  | none => []

/-- `GenerateStructs`: package header, import, then the structs in
declaration order. -/
def generateStructs (g : StructGenerator) : Str :=
  str "package " ++ g.packageName ++ str "\n\n" ++ str "import \"encoding/xml\"\n\n" ++
    g.elementOrder.flatMap (emitFor g)

/-- The parse-then-generate composition of `main`. -/
def runPipeline (text : Str) (packageName : Str) : Str :=
  let r := parseDTDText text
  generateStructs ⟨packageName, r.elements, r.order⟩

/-! ## Derived definitions used by the verification -/

/-- The number of entries of `m` whose key is `k`. -/
def keysCount {α : Type} (m : List (Str × α)) (k : Str) : Nat :=
  m.countP (fun kv => decide (kv.1 = k))

/-- Claim-side simplicity predicate, following the spec's words (§4.2
Step 1): simple means pure text content (`(#PCDATA)`/`#PCDATA`) or
`EMPTY`, with no attributes.  Kept separate from `isSimpleElement` (the
code's classification) so that the two can be compared. -/
def claimSimpleElement (element : DTDElement) : Bool :=
  (element.content = str "(#PCDATA)" || element.content = str "#PCDATA" ||
      element.content = str "EMPTY") &&
    element.attributes.isEmpty

/-- The default-spec token that `parseEntityValue` interprets: the token
right after the first token containing `)` (index `0` when no token
contains `)`, since the Go code then has `typeEnd = -1`), or the empty
string when that index is out of range. -/
def entityDefaultSpec (entityValue : Str) : Str :=
  let parts := goFields entityValue
  let typeEnd : Int :=
    match parts.findIdx? (fun part => goContains part (str ")")) with
    | some k => (k : Int)
    | none => -1
  if typeEnd + 1 < (parts.length : Int) then parts.getD (typeEnd + 1).toNat [] else []

/-- The attribute definitions one scanned declaration contributes to the
accumulated attribute list of element `n`: those parsed from an
`<!ATTLIST>` declaration naming `n`, nothing from any other
declaration. -/
def lineContrib (p : DTDParser) (line0 : Str) (n : Str) : List DTDAttribute :=
  let line := goTrimSpace line0
  if goStartsWith line (str "<!ENTITY") then []
  else if goStartsWith line (str "<!ELEMENT") then []
  else if goStartsWith line (str "<!ATTLIST") then
    match attlistInfo p line with
    | some (elementName, attrs) => if elementName = n then attrs else []
    | none => []
  else []

/-- The concatenation, in encounter order, of the attribute definitions
parsed for element `n` from the `<!ATTLIST>` declarations flushed while
scanning `lines` from state `st` (it follows the scanner loop of
`ParseFile` step by step). -/
def scanContribs (st : ScanState) (n : Str) : List Str → List DTDAttribute
  | [] => []
  | l :: ls =>
    let line := goTrimSpace l
    if line.isEmpty || goStartsWith line (str "<!--") then scanContribs st n ls
    else
      let buf := st.buf ++ line ++ [' ']
      if goEndsWith line (str ">") &&
          (goContains buf (str "<!ELEMENT") || goContains buf (str "<!ATTLIST") ||
            goContains buf (str "<!ENTITY")) then
        lineContrib st.parser (goTrimSpace buf) n ++
          scanContribs ⟨parseLine st.parser (goTrimSpace buf), []⟩ n ls
      else scanContribs ⟨st.parser, buf⟩ n ls

/-- Invariant of every reachable parser state: every name in the
declaration order has an element entry. -/
def ordInv (p : DTDParser) : Prop :=
  ∀ n, n ∈ p.elementOrder → (mapGet p.elements n).isSome = true

/-- Invariant of every reachable parser state: stored elements carry no
attributes until the attachment pass at the end of `ParseFile`. -/
def elemAttrsNil (p : DTDParser) : Prop :=
  ∀ kv ∈ p.elements, kv.2.attributes = ([] : List DTDAttribute)

/-! ## Concrete inputs used by the witnesses and counterexamples -/

/-- C2's counterexample element: content `EMPTY` but with an attribute. -/
def c2NoteElem : DTDElement :=
  ⟨str "note", str "EMPTY", [⟨str "id", str "CDATA", [], true⟩]⟩

/-- C2's counterexample generator state. -/
def gC2Gen : StructGenerator :=
  ⟨str "main", [(str "note", c2NoteElem)], [str "note"]⟩

/-- The generator state of the spec's choice example
`<!ELEMENT shape (circle | square)>` (with `circle` and `square` not
declared). -/
def gShapeGen : StructGenerator :=
  ⟨str "main", [(str "shape", ⟨str "shape", str "(circle | square)", []⟩)], [str "shape"]⟩

/-- A generator state with one declared element whose model references the
undeclared child `kid`. -/
def gKidGen : StructGenerator :=
  ⟨str "main", [(str "box", ⟨str "box", str "(kid)", []⟩)], [str "box"]⟩

/-- A mixed-content element with one attribute, used by C6's witness. -/
def c6Para : DTDElement :=
  ⟨str "para", str "( #PCDATA | b )*", [⟨str "id", str "CDATA", [], false⟩]⟩

/-- The entity table of the spec's entity-substitution example. -/
def c3Ents : List (Str × Str) :=
  [(str "e", str "status ( a | b ) #REQUIRED")]

/-- The input of C9's witness: attribute lists both before and after the
element declaration they name, plus one naming an element that is never
declared. -/
def c9Lines : List Str :=
  [str "<!ATTLIST b x CDATA #REQUIRED>",
   str "<!ELEMENT b (#PCDATA)>",
   str "<!ATTLIST b y CDATA #IMPLIED>",
   str "<!ATTLIST w q CDATA #IMPLIED>"]

/-- First concrete `<!ATTLIST x ...>` line of C5's witness. -/
def c5Line1 : Str := str "<!ATTLIST x a CDATA #REQUIRED>"

/-- Second concrete `<!ATTLIST x ...>` line of C5's witness. -/
def c5Line2 : Str := str "<!ATTLIST x b CDATA #IMPLIED>"

/-- The parser state after C5's first attribute-list statement. -/
def c5P1 : DTDParser := parseAttributeList emptyParser c5Line1

/-! ## Supporting lemmas: strings -/

theorem goStartsWith_append (a b : Str) : goStartsWith (a ++ b) a = true := by
  induction a with
  | nil => cases b <;> rfl
  | cons c t ih => simp [goStartsWith, ih]

theorem goEndsWith_append (a b : Str) : goEndsWith (a ++ b) b = true := by
  unfold goEndsWith
  rw [List.reverse_append]
  exact goStartsWith_append _ _

theorem goStripStart_append (a b : Str) : goStripStart (a ++ b) a = b := by
  unfold goStripStart
  rw [if_pos (goStartsWith_append a b), List.drop_left]

theorem goStripEnd_append (a b : Str) : goStripEnd (a ++ b) b = a := by
  unfold goStripEnd
  rw [if_pos (goEndsWith_append a b)]
  simp [List.take_left]

/-! ## Supporting lemmas: association-list maps -/

theorem mapGet_mapSet_self {α : Type} (m : List (Str × α)) (k : Str) (v : α) :
    mapGet (mapSet m k v) k = some v := by
  induction m with
  | nil => simp [mapSet, mapGet]
  | cons kv t ih =>
    obtain ⟨k0, v0⟩ := kv
    by_cases h : k0 = k
    · simp [mapSet, mapGet, h]
    · simp [mapSet, mapGet, h, ih]

theorem mapGet_mapSet_ne {α : Type} (m : List (Str × α)) (k k' : Str) (v : α)
    (h : k' ≠ k) : mapGet (mapSet m k v) k' = mapGet m k' := by
  induction m with
  | nil =>
    simp only [mapSet, mapGet]
    rw [if_neg (fun hh => h hh.symm)]
  | cons kv t ih =>
    obtain ⟨k0, v0⟩ := kv
    simp only [mapSet, mapGet]
    by_cases hk : k0 = k
    · rw [if_pos hk]
      have hne : ¬k0 = k' := fun hh => h (hh.symm.trans hk)
      simp only [mapGet]
      rw [if_neg hne, if_neg hne]
    · rw [if_neg hk]
      simp only [mapGet]
      by_cases hk' : k0 = k'
      · rw [if_pos hk', if_pos hk']
      · rw [if_neg hk', if_neg hk', ih]

theorem mem_of_mapGet {α : Type} (m : List (Str × α)) (k : Str) (v : α)
    (h : mapGet m k = some v) : (k, v) ∈ m := by
  induction m with
  | nil => simp [mapGet] at h
  | cons kv t ih =>
    obtain ⟨k0, v0⟩ := kv
    by_cases hk : k0 = k
    · simp only [mapGet, if_pos hk] at h
      injection h with hv
      subst hv
      subst hk
      exact List.mem_cons_self _ _
    · simp only [mapGet, if_neg hk] at h
      exact List.mem_cons_of_mem _ (ih h)

theorem keysCount_nil {α : Type} (k : Str) : keysCount ([] : List (Str × α)) k = 0 := rfl

theorem keysCount_cons {α : Type} (k0 : Str) (v0 : α) (t : List (Str × α)) (k : Str) :
    keysCount ((k0, v0) :: t) k = (if k0 = k then 1 else 0) + keysCount t k := by
  by_cases h : k0 = k
  · simp [keysCount, List.countP_cons, h]
    omega
  · simp [keysCount, List.countP_cons, h]

theorem keysCount_eq_zero {α : Type} (m : List (Str × α)) (k : Str)
    (h : mapGet m k = none) : keysCount m k = 0 := by
  induction m with
  | nil => rfl
  | cons kv t ih =>
    obtain ⟨k0, v0⟩ := kv
    by_cases hk : k0 = k
    · simp [mapGet, hk] at h
    · simp only [mapGet, if_neg hk] at h
      rw [keysCount_cons, if_neg hk, ih h]

theorem mapGet_none_iff_not_mem_keys {α : Type} (m : List (Str × α)) (k : Str) :
    mapGet m k = none ↔ k ∉ m.map Prod.fst := by
  induction m with
  | nil => simp [mapGet]
  | cons kv t ih =>
    obtain ⟨k0, v0⟩ := kv
    simp only [mapGet, List.map_cons, List.mem_cons]
    by_cases hk : k0 = k
    · subst hk
      rw [if_pos rfl]
      constructor
      · intro h
        exact Option.noConfusion h
      · intro h
        exact absurd (Or.inl rfl) h
    · rw [if_neg hk, ih]
      constructor
      · intro h hmem
        rcases hmem with hh | hh
        · exact hk hh.symm
        · exact h hh
      · intro h hh
        exact h (Or.inr hh)

theorem keysCount_one_of_nodup {α : Type} (m : List (Str × α)) (k : Str) (v : α)
    (hn : (m.map Prod.fst).Nodup) (h : mapGet m k = some v) : keysCount m k = 1 := by
  induction m with
  | nil => simp [mapGet] at h
  | cons kv t ih =>
    obtain ⟨k0, v0⟩ := kv
    simp only [List.map_cons, List.nodup_cons] at hn
    by_cases hk : k0 = k
    · subst hk
      have ht : mapGet t k0 = none := (mapGet_none_iff_not_mem_keys t k0).2 hn.1
      rw [keysCount_cons, if_pos rfl, keysCount_eq_zero t k0 ht]
    · simp only [mapGet, if_neg hk] at h
      rw [keysCount_cons, if_neg hk, ih hn.2 h]

theorem mapSet_eq_append {α : Type} (m : List (Str × α)) (k : Str) (v : α)
    (h : mapGet m k = none) : mapSet m k v = m ++ [(k, v)] := by
  induction m with
  | nil => rfl
  | cons kv t ih =>
    obtain ⟨k0, v0⟩ := kv
    by_cases hk : k0 = k
    · simp [mapGet, hk] at h
    · simp only [mapGet, if_neg hk] at h
      simp [mapSet, hk, ih h]

theorem keysCount_mapSet_of_some {α : Type} (m : List (Str × α)) (k : Str) (v w : α)
    (h : mapGet m k = some w) : keysCount (mapSet m k v) k = keysCount m k := by
  induction m with
  | nil => simp [mapGet] at h
  | cons kv t ih =>
    obtain ⟨k0, v0⟩ := kv
    simp only [mapSet]
    by_cases hk : k0 = k
    · rw [if_pos hk, keysCount_cons, keysCount_cons]
    · simp only [mapGet, if_neg hk] at h
      rw [if_neg hk, keysCount_cons, keysCount_cons, ih h]

theorem keys_mapSet {α : Type} (m : List (Str × α)) (k : Str) (v : α) :
    (mapSet m k v).map Prod.fst =
      if (mapGet m k).isSome then m.map Prod.fst else m.map Prod.fst ++ [k] := by
  induction m with
  | nil => simp [mapSet, mapGet]
  | cons kv t ih =>
    obtain ⟨k0, v0⟩ := kv
    by_cases hk : k0 = k
    · subst hk
      simp [mapSet, mapGet]
    · simp only [mapSet, mapGet, if_neg hk, List.map_cons, ih]
      by_cases ht : (mapGet t k).isSome
      · simp [ht]
      · simp [ht]

theorem keysCount_append_same {α : Type} (m : List (Str × α)) (k : Str) (v : α) :
    keysCount (m ++ [(k, v)]) k = keysCount m k + 1 := by
  simp [keysCount, List.countP_append, List.countP_cons]

/-! ## Claim C4 -/

/-- C4: for every line on which the `<!ELEMENT name content>` regex
matches, `parseElement` leaves exactly one entry for `name` in the
element map (holding the freshly parsed content and empty attributes),
keeps the key set duplicate-free, and appends `name` to the declaration
order only when the name was not yet present — a re-declaration leaves
the order, and hence the name's position in it, unchanged. -/
theorem elementDecl_unique_entry_stable_order (p : DTDParser) (line name rawContent : Str)
    (hm : findElementMatch line = some (name, rawContent))
    (hn : (p.elements.map Prod.fst).Nodup) :
    keysCount (parseElement p line).elements name = 1 ∧
    mapGet (parseElement p line).elements name = some ⟨name, goTrimSpace rawContent, []⟩ ∧
    ((parseElement p line).elements.map Prod.fst).Nodup ∧
    ((mapGet p.elements name).isSome = true →
      (parseElement p line).elementOrder = p.elementOrder) ∧
    ((mapGet p.elements name).isSome = false →
      (parseElement p line).elementOrder = p.elementOrder ++ [name]) := by
  by_cases hs : (mapGet p.elements name).isSome = true
  · have hpe : parseElement p line =
        { p with elements := mapSet p.elements name ⟨name, goTrimSpace rawContent, []⟩ } := by
      simp only [parseElement, hm]
      rw [if_pos hs]
    obtain ⟨w, hw⟩ := Option.isSome_iff_exists.1 hs
    rw [hpe]
    refine ⟨?_, mapGet_mapSet_self _ _ _, ?_, fun _ => rfl,
      fun hc => absurd (hs.symm.trans hc) (by decide)⟩
    · show keysCount (mapSet p.elements name _) name = 1
      rw [keysCount_mapSet_of_some p.elements name _ w hw]
      exact keysCount_one_of_nodup p.elements name w hn hw
    · show ((mapSet p.elements name _).map Prod.fst).Nodup
      rw [keys_mapSet, if_pos hs]
      exact hn
  · have hnone : mapGet p.elements name = none := by
      cases h : mapGet p.elements name with
      | none => rfl
      | some w =>
        rw [h] at hs
        simp at hs
    have hpe : parseElement p line =
        { p with
          elements := mapSet p.elements name ⟨name, goTrimSpace rawContent, []⟩,
          elementOrder := p.elementOrder ++ [name] } := by
      simp only [parseElement, hm]
      rw [if_neg hs]
    rw [hpe]
    refine ⟨?_, mapGet_mapSet_self _ _ _, ?_, ?_, fun _ => rfl⟩
    · show keysCount (mapSet p.elements name _) name = 1
      rw [mapSet_eq_append _ _ _ hnone, keysCount_append_same,
        keysCount_eq_zero _ _ hnone]
    · show ((mapSet p.elements name _).map Prod.fst).Nodup
      rw [keys_mapSet, if_neg hs]
      refine List.Nodup.append hn (List.nodup_singleton name) ?_
      intro x hx hx'
      rw [List.mem_singleton] at hx'
      rw [hx'] at hx
      exact (mapGet_none_iff_not_mem_keys p.elements name).1 hnone hx
    · intro hc
      rw [hnone] at hc
      exact absurd hc (by decide)

/-- Witness for C4: the regex matches `<!ELEMENT book (title, author)>`,
the empty parser has duplicate-free keys, and instantiating the theorem
there gives the unique entry and the appended order. -/
theorem elementDecl_unique_entry_stable_order_witness :
    findElementMatch (str "<!ELEMENT book (title, author)>") =
      some (str "book", str "(title, author)") ∧
    keysCount (parseElement emptyParser (str "<!ELEMENT book (title, author)>")).elements
      (str "book") = 1 ∧
    (parseElement emptyParser (str "<!ELEMENT book (title, author)>")).elementOrder =
      emptyParser.elementOrder ++ [str "book"] :=
  ⟨by decide,
   (elementDecl_unique_entry_stable_order emptyParser
      (str "<!ELEMENT book (title, author)>") (str "book") (str "(title, author)")
      (by decide) (by decide)).1,
   (elementDecl_unique_entry_stable_order emptyParser
      (str "<!ELEMENT book (title, author)>") (str "book") (str "(title, author)")
      (by decide) (by decide)).2.2.2.2 (by decide)⟩

/-! ## Claim C5 -/

/-- C5: `parseAttributeList` appends the attribute definitions parsed
from one `<!ATTLIST>` statement to whatever was already recorded for that
element (old entries first, so encounter order is preserved), and leaves
every other element's recorded attributes untouched — accumulation, never
replacement. -/
theorem attlist_accumulates (p : DTDParser) (line elementName : Str)
    (attrs : List DTDAttribute)
    (hi : attlistInfo p line = some (elementName, attrs)) :
    ∀ n, mapGet (parseAttributeList p line).attributes n =
      if n = elementName then some ((mapGet p.attributes n).getD [] ++ attrs)
      else mapGet p.attributes n := by
  intro n
  simp only [parseAttributeList, hi]
  by_cases h : n = elementName
  · subst h
    rw [if_pos rfl]
    exact mapGet_mapSet_self _ _ _
  · rw [if_neg h]
    exact mapGet_mapSet_ne _ _ _ _ h

/-- Witness for C5: two concrete `<!ATTLIST x ...>` statements; the
second appends its definition after the first one's, so both contribute
in encounter order. -/
theorem attlist_accumulates_witness :
    attlistInfo c5P1 c5Line2 =
      some (str "x", [⟨str "b", str "CDATA", [], false⟩]) ∧
    mapGet (parseAttributeList c5P1 c5Line2).attributes (str "x") =
      some ((mapGet c5P1.attributes (str "x")).getD [] ++
        [⟨str "b", str "CDATA", [], false⟩]) ∧
    (mapGet c5P1.attributes (str "x")).getD [] =
      [⟨str "a", str "CDATA", [], true⟩] ∧
    mapGet (parseAttributeList c5P1 c5Line2).attributes (str "x") =
      some [⟨str "a", str "CDATA", [], true⟩, ⟨str "b", str "CDATA", [], false⟩] :=
  ⟨by decide,
   by
    have h := attlist_accumulates c5P1 c5Line2 (str "x")
      [⟨str "b", str "CDATA", [], false⟩] (by decide) (str "x")
    rw [if_pos rfl] at h
    exact h,
   by decide, by decide⟩

/-! ## Claim C8 -/

/-- C8: the parse-then-generate pipeline is a deterministic function of
the input text and the package name — two runs on byte-identical input
with the same configuration produce byte-identical output. -/
theorem pipeline_deterministic (t1 t2 pkg1 pkg2 : Str)
    (h1 : t1 = t2) (h2 : pkg1 = pkg2) :
    runPipeline t1 pkg1 = runPipeline t2 pkg2 := by
  rw [h1, h2]

/-- Witness for C8: two runs on the same concrete input agree, and the
output is the concrete generated text. -/
theorem pipeline_deterministic_witness :
    runPipeline (str "<!ELEMENT a (#PCDATA)>") (str "main") =
      runPipeline (str "<!ELEMENT a (#PCDATA)>") (str "main") ∧
    runPipeline (str "<!ELEMENT a (#PCDATA)>") (str "main") =
      str "package main\n\nimport \"encoding/xml\"\n\n" :=
  ⟨pipeline_deterministic _ _ _ _ rfl rfl, by decide⟩

/-! ## Fields emitted by the dedup loop -/

theorem dedupFields_mem (g : StructGenerator) (original : Str) (gr : Bool) :
    ∀ names seen f, f ∈ dedupFields g original gr seen names →
      f.isSimple = isSimpleElement g f.childName ∧
      f.isSlice = (gr || goContains original (f.childName ++ str "*") ||
        goContains original (f.childName ++ str "+") ||
        goContains original (str "|")) := by
  intro names
  induction names with
  | nil =>
    intro seen f hf
    simp [dedupFields] at hf
  | cons n rest ih =>
    intro seen f hf
    by_cases hmem : n ∈ seen
    · simp only [dedupFields, if_pos hmem] at hf
      exact ih seen f hf
    · simp only [dedupFields, if_neg hmem] at hf
      rcases List.mem_cons.1 hf with h | h
      · subst h
        exact ⟨rfl, rfl⟩
      · exact ih (n :: seen) f h

/-! ## Claim C2 -/

/-- Counterexample to C2 as stated: the element `note` has content model
`EMPTY` but carries an attribute, so under the claim's condition (pure
text or `EMPTY`, and no attributes) it would be structured and receive
its own generated definition; the code nevertheless classifies it simple
and emits no definition for it (the generated output is just the
header). -/
theorem simple_classification_counterexample :
    isSimpleElement gC2Gen (str "note") = true ∧
    mapGet gC2Gen.elements (str "note") = some c2NoteElem ∧
    c2NoteElem.content = str "EMPTY" ∧
    c2NoteElem.attributes ≠ [] ∧
    claimSimpleElement c2NoteElem = false ∧
    generateStructs gC2Gen = str "package main\n\nimport \"encoding/xml\"\n\n" := by
  decide

/-- C2 amended: a declared element is classified simple exactly when its
trimmed content model is literally `( #PCDATA )`, `#PCDATA` or `EMPTY`
(regardless of attributes), or it has no attributes and its trimmed
content model contains `#PCDATA`; a simple element contributes no
definition to the generated output. -/
theorem simple_classification_code_condition (g : StructGenerator) (name : Str)
    (element : DTDElement) (hm : mapGet g.elements name = some element) :
    (isSimpleElement g name = true ↔
      (goTrimSpace element.content = str "( #PCDATA )" ∨
       goTrimSpace element.content = str "#PCDATA" ∨
       goTrimSpace element.content = str "EMPTY" ∨
       (element.attributes = [] ∧
         goContains (goTrimSpace element.content) (str "#PCDATA") = true))) ∧
    (isSimpleElement g name = true → emitFor g name = []) := by
  constructor
  · simp only [isSimpleElement, hm]
    split_ifs with hc1 hc2
    · simp only [true_iff]
      simp only [Bool.or_eq_true, decide_eq_true_eq] at hc1
      tauto
    · simp only [true_iff]
      simp only [Bool.and_eq_true, Bool.or_eq_true, decide_eq_true_eq,
        List.length_eq_zero] at hc2
      rcases hc2 with ⟨ha, hb | hb⟩
      · tauto
      · tauto
    · simp only [false_iff]
      simp only [Bool.or_eq_true, decide_eq_true_eq, not_or] at hc1
      simp only [Bool.and_eq_true, Bool.or_eq_true, decide_eq_true_eq,
        List.length_eq_zero, not_and_or, not_or] at hc2
      push_neg
      obtain ⟨⟨ha1, ha2⟩, ha3⟩ := hc1
      refine ⟨ha1, ha2, ha3, ?_⟩
      intro ha
      rcases hc2 with hc | hc
      · exact absurd ha hc
      · exact hc.2
  · intro hs
    simp only [emitFor, hm]
    rw [if_pos hs]

/-- Witness for C2's amended theorem, instantiated at the counterexample
element itself. -/
theorem simple_classification_code_condition_witness :
    mapGet gC2Gen.elements (str "note") = some c2NoteElem ∧
    (isSimpleElement gC2Gen (str "note") = true ↔
      (goTrimSpace c2NoteElem.content = str "( #PCDATA )" ∨
       goTrimSpace c2NoteElem.content = str "#PCDATA" ∨
       goTrimSpace c2NoteElem.content = str "EMPTY" ∨
       (c2NoteElem.attributes = [] ∧
         goContains (goTrimSpace c2NoteElem.content) (str "#PCDATA") = true))) ∧
    (isSimpleElement gC2Gen (str "note") = true → emitFor gC2Gen (str "note") = []) :=
  ⟨by decide,
   (simple_classification_code_condition gC2Gen (str "note") c2NoteElem (by decide)).1,
   (simple_classification_code_condition gC2Gen (str "note") c2NoteElem (by decide)).2⟩

/-! ## Claim C10 -/

/-- C10: every content field whose child name has no element declaration
is treated as simple and rendered string-typed (`[]string` when
repeatable, `*string` otherwise) — never as a reference to an ungennerated
struct type. -/
theorem undeclared_child_is_string_field (g : StructGenerator) (content : Str) :
    ∀ f ∈ parseContentModelFields g content,
      mapGet g.elements f.childName = none →
        f.isSimple = true ∧
        renderContentField f =
          (if f.isSlice = true then
            toGoFieldName f.childName ++ str " []string `xml:\"" ++ f.childName ++
              str ",omitempty\"`"
          else
            toGoFieldName f.childName ++ str " *string `xml:\"" ++ f.childName ++
              str ",omitempty\"`") := by
  intro f hf hnone
  simp only [parseContentModelFields] at hf
  obtain ⟨hsimple, -⟩ := dedupFields_mem g _ _ _ _ f hf
  have hs : isSimpleElement g f.childName = true := by
    simp [isSimpleElement, hnone]
  have hfs : f.isSimple = true := hsimple.trans hs
  refine ⟨hfs, ?_⟩
  simp only [renderContentField, hfs]
  rfl

/-- Witness for C10: the undeclared child `kid` of `box` becomes an
optional `*string` field. -/
theorem undeclared_child_is_string_field_witness :
    (⟨str "kid", false, true⟩ : ContentField) ∈
      parseContentModelFields gKidGen (str "(kid)") ∧
    mapGet gKidGen.elements (str "kid") = none ∧
    (⟨str "kid", false, true⟩ : ContentField).isSimple = true ∧
    renderContentField ⟨str "kid", false, true⟩ =
      str "Kid *string `xml:\"kid,omitempty\"`" :=
  ⟨by decide, by decide,
   (undeclared_child_is_string_field gKidGen (str "(kid)")
      ⟨str "kid", false, true⟩ (by decide) (by decide)).1,
   ((undeclared_child_is_string_field gKidGen (str "(kid)")
      ⟨str "kid", false, true⟩ (by decide) (by decide)).2).trans (by decide)⟩

/-! ## Claim C1 -/

/-- C1: for a content model that is none of `EMPTY`/`ANY` and contains
neither `#PCDATA` nor `%`, the generated fields are exactly the rendered
extracted child fields, and each unique child's field is a slice if and
only if the trimmed expression ends in `)*`/`)+` (group-level repetition),
or the child's name occurs immediately followed by `*` or `+`, or the
expression contains a choice operator `|` anywhere; a field that is not a
slice is rendered as an optional (omitempty) pointer. -/
theorem choice_and_repetition_cardinality (g : StructGenerator) (content : Str)
    (h1 : content ≠ str "EMPTY") (h2 : content ≠ str "ANY")
    (h3 : goContains content (str "#PCDATA") = false)
    (h4 : goContains content (str "%") = false) :
    parseContentModel g content =
      (parseContentModelFields g content).map renderContentField ∧
    (∀ f ∈ parseContentModelFields g content,
      (f.isSlice = true ↔
        (goEndsWith (goTrimSpace content) (str ")*") = true ∨
         goEndsWith (goTrimSpace content) (str ")+") = true ∨
         goContains (goTrimSpace content) (f.childName ++ str "*") = true ∨
         goContains (goTrimSpace content) (f.childName ++ str "+") = true ∨
         goContains (goTrimSpace content) (str "|") = true))) ∧
    (∀ f ∈ parseContentModelFields g content, f.isSlice = false →
      renderContentField f =
        (if f.isSimple = true then
          toGoFieldName f.childName ++ str " *string `xml:\"" ++ f.childName ++
            str ",omitempty\"`"
        else
          toGoFieldName f.childName ++ str " *" ++ toGoStructName f.childName ++
            str " `xml:\"" ++ f.childName ++ str ",omitempty\"`")) := by
  refine ⟨?_, ?_, ?_⟩
  · simp only [parseContentModel]
    rw [if_neg h1, if_neg h2, if_neg (by simp [h3]), if_neg (by simp [h4])]
  · intro f hf
    simp only [parseContentModelFields] at hf
    obtain ⟨-, hslice⟩ := dedupFields_mem g _ _ _ _ f hf
    rw [hslice]
    simp only [Bool.or_eq_true, or_assoc]
  · intro f hf hsl
    by_cases hsim : f.isSimple = true
    · simp [renderContentField, hsl, hsim]
    · simp [renderContentField, hsl, hsim]

/-- Witness for C1, at the spec's choice example
`<!ELEMENT shape (circle | square)>`: the hypotheses hold, the rendered
fields are the extracted ones, and both `circle` and `square` come out as
collection (`[]string`) fields. -/
theorem choice_and_repetition_cardinality_witness :
    (str "(circle | square)" ≠ str "EMPTY") ∧
    (str "(circle | square)" ≠ str "ANY") ∧
    goContains (str "(circle | square)") (str "#PCDATA") = false ∧
    goContains (str "(circle | square)") (str "%") = false ∧
    parseContentModel gShapeGen (str "(circle | square)") =
      (parseContentModelFields gShapeGen (str "(circle | square)")).map
        renderContentField ∧
    parseContentModel gShapeGen (str "(circle | square)") =
      [str "Circle []string `xml:\"circle,omitempty\"`",
       str "Square []string `xml:\"square,omitempty\"`"] :=
  ⟨by decide, by decide, by decide, by decide,
   (choice_and_repetition_cardinality gShapeGen (str "(circle | square)")
      (by decide) (by decide) (by decide) (by decide)).1,
   by decide⟩

/-! ## Claim C6 -/

/-- C6: whenever an element's content model contains `#PCDATA`, the
generator derives no child-element fields from it, and the generated body
consists of the identity tag, the attribute fields, and a trailing
chardata text field. -/
theorem mixed_content_text_field (g : StructGenerator) (element : DTDElement)
    (h : goContains element.content (str "#PCDATA") = true) :
    parseContentModel g element.content = [] ∧
    structBodyLines g element =
      (str "XMLName xml.Name `xml:\"" ++ element.name ++ str "\"`") ::
        (element.attributes.map attrFieldLine ++
          [str "Text string `xml:\",chardata\"`"]) := by
  have he1 : element.content ≠ str "EMPTY" := by
    intro he
    rw [he] at h
    exact absurd h (by decide)
  have he2 : element.content ≠ str "ANY" := by
    intro he
    rw [he] at h
    exact absurd h (by decide)
  have hpc : parseContentModel g element.content = [] := by
    simp only [parseContentModel]
    rw [if_neg he1, if_neg he2, if_pos h]
  refine ⟨hpc, ?_⟩
  simp only [structBodyLines, hpc, canContainText]
  rw [if_pos h]
  simp

/-! ## Claim C3 -/

theorem applyDefaultInfo_spec (n t d : Str) :
    applyDefaultInfo ⟨n, t, [], false⟩ d =
      ⟨n, t,
        (if d = str "#REQUIRED" ∨ d = str "#IMPLIED" then []
         else goTrimCut d (str "\"")),
        decide (d = str "#REQUIRED")⟩ := by
  unfold applyDefaultInfo
  by_cases h1 : d = str "#REQUIRED"
  · simp [h1]
  · by_cases h2 : d = str "#IMPLIED"
    · subst h2
      rw [if_neg h1, if_pos rfl, if_pos (Or.inr rfl)]
      rw [show decide ((str "#IMPLIED") = str "#REQUIRED") = false from by decide]
    · simp [h1, h2]

theorem parseEntityValue_spec (v : Str) (acc : List DTDAttribute)
    (hv : 3 ≤ (goFields v).length) :
    parseEntityValue v acc =
      acc ++ [{ name := (goFields v).getD 0 [],
                attrType := str "string",
                defaultValue :=
                  if entityDefaultSpec v = str "#REQUIRED" ∨
                      entityDefaultSpec v = str "#IMPLIED" then []
                  else goTrimCut (entityDefaultSpec v) (str "\""),
                required := decide (entityDefaultSpec v = str "#REQUIRED") }] := by
  simp only [parseEntityValue, entityDefaultSpec]
  rw [if_neg (by omega), applyDefaultInfo_spec]

/-- C3: when the attribute-list token walk meets a token `%e;` whose
entity `e` is stored with value `v` (and `v` splits into at least the
three expected fields), it appends exactly one attribute built by the
simplified 3-field extraction from `v`: named after `v`'s first token,
with string type, required exactly when the default-spec token is
`#REQUIRED`, with no default when it is `#REQUIRED`/`#IMPLIED` and the
quote-stripped default-spec token otherwise — and moves on to the next
token. -/
theorem attlist_entity_substitution (ents : List (Str × Str)) (parts : List Str)
    (fuel i : Nat) (acc : List DTDAttribute) (e v : Str)
    (hi : i < parts.length)
    (htok : parts.getD i [] = str "%" ++ e ++ str ";")
    (hent : mapGet ents e = some v)
    (hv : 3 ≤ (goFields v).length) :
    attrLoop ents parts (fuel + 1) i acc =
      attrLoop ents parts fuel (i + 1)
        (acc ++ [{ name := (goFields v).getD 0 [],
                   attrType := str "string",
                   defaultValue :=
                     if entityDefaultSpec v = str "#REQUIRED" ∨
                         entityDefaultSpec v = str "#IMPLIED" then []
                     else goTrimCut (entityDefaultSpec v) (str "\""),
                   required := decide (entityDefaultSpec v = str "#REQUIRED") }]) := by
  have hpre : goStartsWith (parts.getD i []) (str "%") = true := by
    rw [htok]
    exact goStartsWith_append (str "%") (e ++ str ";")
  have hsuf : goEndsWith (parts.getD i []) (str ";") = true := by
    rw [htok]
    exact goEndsWith_append (str "%" ++ e) (str ";")
  have hname : goStripEnd (goStripStart (parts.getD i []) (str "%")) (str ";") = e := by
    rw [htok, List.append_assoc]
    rw [goStripStart_append (str "%") (e ++ str ";"), goStripEnd_append]
  simp only [attrLoop]
  rw [if_pos hi]
  rw [if_pos (by rw [hpre, hsuf]; rfl)]
  rw [hname, hent]
  show attrLoop ents parts fuel (i + 1) (parseEntityValue v acc) = _
  rw [parseEntityValue_spec v acc hv]

/-- Witness for C3, at the spec's example `<!ENTITY % e "status ( a | b )
#REQUIRED">` followed by `<!ATTLIST x %e;>`: the hypotheses hold, the
token walk substitutes the entity as the theorem states, and the
two-declaration pipeline records for `x` exactly one required,
string-typed attribute named `status`. -/
theorem attlist_entity_substitution_witness :
    (0 < ([str "%e;"] : List Str).length) ∧
    ([str "%e;"] : List Str).getD 0 [] = str "%" ++ str "e" ++ str ";" ∧
    mapGet c3Ents (str "e") = some (str "status ( a | b ) #REQUIRED") ∧
    3 ≤ (goFields (str "status ( a | b ) #REQUIRED")).length ∧
    attrLoop c3Ents [str "%e;"] (1 + 1) 0 [] =
      attrLoop c3Ents [str "%e;"] 1 (0 + 1)
        ([] ++ [{ name := (goFields (str "status ( a | b ) #REQUIRED")).getD 0 [],
                  attrType := str "string",
                  defaultValue :=
                    if entityDefaultSpec (str "status ( a | b ) #REQUIRED") =
                        str "#REQUIRED" ∨
                        entityDefaultSpec (str "status ( a | b ) #REQUIRED") =
                        str "#IMPLIED" then []
                    else goTrimCut (entityDefaultSpec (str "status ( a | b ) #REQUIRED"))
                      (str "\""),
                  required :=
                    decide (entityDefaultSpec (str "status ( a | b ) #REQUIRED") =
                      str "#REQUIRED") }]) ∧
    mapGet (scanLines ⟨emptyParser, []⟩
        [str "<!ENTITY % e \"status ( a | b ) #REQUIRED\">",
         str "<!ATTLIST x %e;>"]).parser.attributes (str "x") =
      some [⟨str "status", str "string", [], true⟩] :=
  ⟨by decide, by decide, by decide, by decide,
   attlist_entity_substitution c3Ents [str "%e;"] 1 0 [] (str "e")
     (str "status ( a | b ) #REQUIRED") (by decide) (by decide) (by decide) (by decide),
   by decide⟩

/-! ## Claim C7 -/

theorem scanLines_parser_const :
    ∀ (suf : List Str),
      (∀ l ∈ suf, goEndsWith (goTrimSpace l) (str ">") = false) →
      ∀ st : ScanState, (scanLines st suf).parser = st.parser := by
  intro suf
  induction suf with
  | nil =>
    intro _ st
    rfl
  | cons l ls ih =>
    intro h st
    have hl := h l (List.mem_cons_self l ls)
    have hstep : (scanStep st l).parser = st.parser := by
      simp only [scanStep]
      by_cases hskip :
          ((goTrimSpace l).isEmpty || goStartsWith (goTrimSpace l) (str "<!--")) = true
      · rw [if_pos hskip]
      · rw [if_neg hskip, if_neg (by simp [hl])]
    rw [show scanLines st (l :: ls) = scanLines (scanStep st l) ls from rfl,
      ih (fun x hx => h x (List.mem_cons_of_mem l hx)) (scanStep st l), hstep]

/-- C7: a trailing run of lines none of which ends (after trimming) with
`>` can never complete a declaration, so the scanner drops it silently:
the parse result of the whole input equals the parse result without those
lines, and parsing still returns a result (the pure model is total; the
Go function only errors on file I/O). -/
theorem unterminated_declaration_dropped (pre suf : List Str)
    (h : ∀ l ∈ suf, goEndsWith (goTrimSpace l) (str ">") = false) :
    parseDTD (pre ++ suf) = parseDTD pre := by
  simp only [parseDTD]
  rw [show scanLines ⟨emptyParser, []⟩ (pre ++ suf) =
      scanLines (scanLines ⟨emptyParser, []⟩ pre) suf from List.foldl_append .. ,
    scanLines_parser_const suf h]

/-- Witness for C7: an unterminated `<!ELEMENT c (d` declaration at end
of input contributes nothing; the result equals that of the terminated
prefix alone. -/
theorem unterminated_declaration_dropped_witness :
    (∀ l ∈ [str "<!ELEMENT c (d"], goEndsWith (goTrimSpace l) (str ">") = false) ∧
    parseDTD ([str "<!ELEMENT a (b)>"] ++ [str "<!ELEMENT c (d"]) =
      parseDTD [str "<!ELEMENT a (b)>"] ∧
    (parseDTD [str "<!ELEMENT a (b)>", str "<!ELEMENT c (d"]).order = [str "a"] :=
  ⟨by decide,
   unterminated_declaration_dropped [str "<!ELEMENT a (b)>"] [str "<!ELEMENT c (d"]
     (by decide),
   by decide⟩

/-! ## Claim C9: state-preservation lemmas -/

theorem mem_mapSet {α : Type} (m : List (Str × α)) (k : Str) (v : α) :
    ∀ kv ∈ mapSet m k v, kv ∈ m ∨ kv = (k, v) := by
  induction m with
  | nil =>
    intro kv hkv
    simp only [mapSet, List.mem_singleton] at hkv
    exact Or.inr hkv
  | cons kv0 t ih =>
    obtain ⟨k0, v0⟩ := kv0
    intro kv hkv
    simp only [mapSet] at hkv
    by_cases hk : k0 = k
    · rw [if_pos hk] at hkv
      rcases List.mem_cons.1 hkv with hh | hh
      · subst hh
        subst hk
        exact Or.inr rfl
      · exact Or.inl (List.mem_cons_of_mem _ hh)
    · rw [if_neg hk] at hkv
      rcases List.mem_cons.1 hkv with hh | hh
      · subst hh
        exact Or.inl (List.mem_cons_self _ _)
      · rcases ih kv hh with hh' | hh'
        · exact Or.inl (List.mem_cons_of_mem _ hh')
        · exact Or.inr hh'

theorem parseEntity_attributes (p : DTDParser) (l : Str) :
    (parseEntity p l).attributes = p.attributes := by
  unfold parseEntity
  cases h : findEntityMatch l with
  | none => rfl
  | some r =>
    obtain ⟨a, b⟩ := r
    rfl

theorem parseEntity_elements (p : DTDParser) (l : Str) :
    (parseEntity p l).elements = p.elements := by
  unfold parseEntity
  cases h : findEntityMatch l with
  | none => rfl
  | some r =>
    obtain ⟨a, b⟩ := r
    rfl

theorem parseEntity_order (p : DTDParser) (l : Str) :
    (parseEntity p l).elementOrder = p.elementOrder := by
  unfold parseEntity
  cases h : findEntityMatch l with
  | none => rfl
  | some r =>
    obtain ⟨a, b⟩ := r
    rfl

theorem parseElement_attributes (p : DTDParser) (l : Str) :
    (parseElement p l).attributes = p.attributes := by
  cases h : findElementMatch l with
  | none => simp [parseElement, h]
  | some r =>
    obtain ⟨a, b⟩ := r
    simp only [parseElement, h]
    split
    · rfl
    · rfl

theorem parseAttributeList_attrs_some (p : DTDParser) (l m : Str)
    (attrs : List DTDAttribute) (hai : attlistInfo p l = some (m, attrs)) :
    (parseAttributeList p l).attributes =
      mapSet p.attributes m ((mapGet p.attributes m).getD [] ++ attrs) := by
  simp only [parseAttributeList, hai]

theorem parseAttributeList_attrs_none (p : DTDParser) (l : Str)
    (hai : attlistInfo p l = none) :
    (parseAttributeList p l).attributes = p.attributes := by
  simp only [parseAttributeList, hai]

theorem parseAttributeList_elements (p : DTDParser) (l : Str) :
    (parseAttributeList p l).elements = p.elements := by
  unfold parseAttributeList
  cases h : attlistInfo p l with
  | none => rfl
  | some r =>
    obtain ⟨a, b⟩ := r
    rfl

theorem parseAttributeList_order (p : DTDParser) (l : Str) :
    (parseAttributeList p l).elementOrder = p.elementOrder := by
  unfold parseAttributeList
  cases h : attlistInfo p l with
  | none => rfl
  | some r =>
    obtain ⟨a, b⟩ := r
    rfl

/-- Effect of one dispatched declaration on the accumulated attribute
list of element `n`: exactly `lineContrib` is appended. -/
theorem parseLine_attrs (p : DTDParser) (l n : Str) :
    (mapGet (parseLine p l).attributes n).getD [] =
      (mapGet p.attributes n).getD [] ++ lineContrib p l n := by
  simp only [parseLine, lineContrib]
  by_cases h1 : goStartsWith (goTrimSpace l) (str "<!ENTITY") = true
  · rw [if_pos h1, if_pos h1, parseEntity_attributes, List.append_nil]
  · rw [if_neg h1, if_neg h1]
    by_cases h2 : goStartsWith (goTrimSpace l) (str "<!ELEMENT") = true
    · rw [if_pos h2, if_pos h2, parseElement_attributes, List.append_nil]
    · rw [if_neg h2, if_neg h2]
      by_cases h3 : goStartsWith (goTrimSpace l) (str "<!ATTLIST") = true
      · rw [if_pos h3, if_pos h3]
        cases hai : attlistInfo p (goTrimSpace l) with
        | none => simp [parseAttributeList_attrs_none p _ hai, hai]
        | some r =>
          obtain ⟨m, attrs⟩ := r
          rw [parseAttributeList_attrs_some p _ m attrs hai]
          simp only [hai]
          by_cases hnm : m = n
          · subst hnm
            rw [if_pos rfl, mapGet_mapSet_self]
            rfl
          · rw [if_neg hnm, mapGet_mapSet_ne _ _ _ _ (fun hh => hnm hh.symm),
              List.append_nil]
      · rw [if_neg h3, if_neg h3, List.append_nil]

/-- Accumulation over the whole scanner loop: the attribute list recorded
for `n` grows exactly by the contributions of the flushed `<!ATTLIST>`
declarations naming `n`, in encounter order. -/
theorem scanLines_attrs :
    ∀ (lines : List Str) (st : ScanState) (n : Str),
      (mapGet (scanLines st lines).parser.attributes n).getD [] =
        (mapGet st.parser.attributes n).getD [] ++ scanContribs st n lines := by
  intro lines
  induction lines with
  | nil =>
    intro st n
    simp [scanLines, scanContribs]
  | cons l ls ih =>
    intro st n
    rw [show scanLines st (l :: ls) = scanLines (scanStep st l) ls from rfl]
    simp only [scanContribs]
    by_cases h1 :
        ((goTrimSpace l).isEmpty || goStartsWith (goTrimSpace l) (str "<!--")) = true
    · rw [if_pos h1]
      have hs : scanStep st l = st := by
        simp only [scanStep]
        rw [if_pos h1]
      rw [hs, ih]
    · rw [if_neg h1]
      by_cases h2 :
          (goEndsWith (goTrimSpace l) (str ">") &&
            (goContains (st.buf ++ goTrimSpace l ++ [' ']) (str "<!ELEMENT") ||
              goContains (st.buf ++ goTrimSpace l ++ [' ']) (str "<!ATTLIST") ||
              goContains (st.buf ++ goTrimSpace l ++ [' ']) (str "<!ENTITY"))) = true
      · rw [if_pos h2]
        have hs : scanStep st l =
            ⟨parseLine st.parser (goTrimSpace (st.buf ++ goTrimSpace l ++ [' '])), []⟩ := by
          simp only [scanStep]
          rw [if_neg h1, if_pos h2]
        rw [hs, ih]
        show (mapGet (parseLine st.parser _).attributes n).getD [] ++ _ = _
        rw [parseLine_attrs, List.append_assoc]
      · rw [if_neg h2]
        have hs : scanStep st l = ⟨st.parser, st.buf ++ goTrimSpace l ++ [' ']⟩ := by
          simp only [scanStep]
          rw [if_neg h1, if_neg h2]
        rw [hs, ih]

/-- `parseLine` preserves the order-has-element invariant. -/
theorem parseLine_ordInv (p : DTDParser) (l : Str) (h : ordInv p) :
    ordInv (parseLine p l) := by
  simp only [parseLine]
  by_cases h1 : goStartsWith (goTrimSpace l) (str "<!ENTITY") = true
  · rw [if_pos h1]
    intro n hn
    rw [parseEntity_order] at hn
    rw [parseEntity_elements]
    exact h n hn
  · rw [if_neg h1]
    by_cases h2 : goStartsWith (goTrimSpace l) (str "<!ELEMENT") = true
    · rw [if_pos h2]
      cases hm : findElementMatch (goTrimSpace l) with
      | none =>
        intro n hn
        simp only [parseElement, hm] at hn ⊢
        exact h n hn
      | some r =>
        obtain ⟨name, raw⟩ := r
        intro n hn
        simp only [parseElement, hm] at hn ⊢
        by_cases hex : (mapGet p.elements name).isSome = true
        · rw [if_pos hex] at hn ⊢
          by_cases hne : n = name
          · subst hne
            rw [mapGet_mapSet_self]
            rfl
          · rw [mapGet_mapSet_ne _ _ _ _ hne]
            exact h n hn
        · rw [if_neg hex] at hn ⊢
          by_cases hne : n = name
          · subst hne
            rw [mapGet_mapSet_self]
            rfl
          · rw [mapGet_mapSet_ne _ _ _ _ hne]
            rcases List.mem_append.1 hn with hh | hh
            · exact h n hh
            · rw [List.mem_singleton] at hh
              exact absurd hh hne
    · rw [if_neg h2]
      by_cases h3 : goStartsWith (goTrimSpace l) (str "<!ATTLIST") = true
      · rw [if_pos h3]
        intro n hn
        rw [parseAttributeList_order] at hn
        rw [parseAttributeList_elements]
        exact h n hn
      · rw [if_neg h3]
        exact h

/-- The scanner loop preserves the order-has-element invariant. -/
theorem scanLines_ordInv :
    ∀ (lines : List Str) (st : ScanState), ordInv st.parser →
      ordInv (scanLines st lines).parser := by
  intro lines
  induction lines with
  | nil =>
    intro st h
    exact h
  | cons l ls ih =>
    intro st h
    rw [show scanLines st (l :: ls) = scanLines (scanStep st l) ls from rfl]
    refine ih (scanStep st l) ?_
    simp only [scanStep]
    by_cases h1 :
        ((goTrimSpace l).isEmpty || goStartsWith (goTrimSpace l) (str "<!--")) = true
    · rw [if_pos h1]
      exact h
    · rw [if_neg h1]
      by_cases h2 :
          (goEndsWith (goTrimSpace l) (str ">") &&
            (goContains (st.buf ++ goTrimSpace l ++ [' ']) (str "<!ELEMENT") ||
              goContains (st.buf ++ goTrimSpace l ++ [' ']) (str "<!ATTLIST") ||
              goContains (st.buf ++ goTrimSpace l ++ [' ']) (str "<!ENTITY"))) = true
      · rw [if_pos h2]
        exact parseLine_ordInv st.parser _ h
      · rw [if_neg h2]
        exact h

/-- `parseLine` preserves the stored-elements-have-no-attributes
invariant. -/
theorem parseLine_attrsNil (p : DTDParser) (l : Str) (h : elemAttrsNil p) :
    elemAttrsNil (parseLine p l) := by
  simp only [parseLine]
  by_cases h1 : goStartsWith (goTrimSpace l) (str "<!ENTITY") = true
  · rw [if_pos h1]
    intro kv hkv
    rw [parseEntity_elements] at hkv
    exact h kv hkv
  · rw [if_neg h1]
    by_cases h2 : goStartsWith (goTrimSpace l) (str "<!ELEMENT") = true
    · rw [if_pos h2]
      cases hm : findElementMatch (goTrimSpace l) with
      | none =>
        intro kv hkv
        simp only [parseElement, hm] at hkv
        exact h kv hkv
      | some r =>
        obtain ⟨name, raw⟩ := r
        intro kv hkv
        simp only [parseElement, hm] at hkv
        by_cases hex : (mapGet p.elements name).isSome = true
        · rw [if_pos hex] at hkv
          rcases mem_mapSet _ _ _ kv hkv with hh | hh
          · exact h kv hh
          · subst hh
            rfl
        · rw [if_neg hex] at hkv
          rcases mem_mapSet _ _ _ kv hkv with hh | hh
          · exact h kv hh
          · subst hh
            rfl
    · rw [if_neg h2]
      by_cases h3 : goStartsWith (goTrimSpace l) (str "<!ATTLIST") = true
      · rw [if_pos h3]
        intro kv hkv
        rw [parseAttributeList_elements] at hkv
        exact h kv hkv
      · rw [if_neg h3]
        exact h

/-- The scanner loop preserves the stored-elements-have-no-attributes
invariant. -/
theorem scanLines_attrsNil :
    ∀ (lines : List Str) (st : ScanState), elemAttrsNil st.parser →
      elemAttrsNil (scanLines st lines).parser := by
  intro lines
  induction lines with
  | nil =>
    intro st h
    exact h
  | cons l ls ih =>
    intro st h
    rw [show scanLines st (l :: ls) = scanLines (scanStep st l) ls from rfl]
    refine ih (scanStep st l) ?_
    simp only [scanStep]
    by_cases h1 :
        ((goTrimSpace l).isEmpty || goStartsWith (goTrimSpace l) (str "<!--")) = true
    · rw [if_pos h1]
      exact h
    · rw [if_neg h1]
      by_cases h2 :
          (goEndsWith (goTrimSpace l) (str ">") &&
            (goContains (st.buf ++ goTrimSpace l ++ [' ']) (str "<!ELEMENT") ||
              goContains (st.buf ++ goTrimSpace l ++ [' ']) (str "<!ATTLIST") ||
              goContains (st.buf ++ goTrimSpace l ++ [' ']) (str "<!ENTITY"))) = true
      · rw [if_pos h2]
        exact parseLine_attrsNil st.parser _ h
      · rw [if_neg h2]
        exact h

/-- Lookup through the attribute-attachment pass. -/
theorem mapGet_attachAttributes (p : DTDParser) (n : Str) :
    mapGet (attachAttributes p) n =
      (mapGet p.elements n).map (fun e =>
        match mapGet p.attributes n with
        | some attrs => { e with attributes := attrs }
        | none => e) := by
  unfold attachAttributes
  have hgen : ∀ l : List (Str × DTDElement),
      mapGet (l.map (fun kv =>
        (kv.1,
          match mapGet p.attributes kv.1 with
          | some attrs => { kv.2 with attributes := attrs }
          | none => kv.2))) n =
      (mapGet l n).map (fun e =>
        match mapGet p.attributes n with
        | some attrs => { e with attributes := attrs }
        | none => e) := by
    intro l
    induction l with
    | nil => rfl
    | cons kv t ih =>
      obtain ⟨k0, e0⟩ := kv
      by_cases hk : k0 = n
      · subst hk
        simp [mapGet]
      · simp [mapGet, hk, ih]
  exact hgen p.elements

/-! ## Claim C9 -/

/-- C9: in the final `ParseResult`, a declared element's attribute list
equals the concatenation, in encounter order, of all attribute
definitions parsed from `<!ATTLIST>` declarations naming it
(`scanContribs`), no matter where those declarations sit relative to the
`<!ELEMENT>` declaration; and a name with no element declaration appears
neither in the element map nor in the order, so attribute definitions for
it are absent from the result. -/
theorem attlist_assembly (lines : List Str) (n : Str) :
    (∀ e, mapGet (parseDTD lines).elements n = some e →
        e.attributes = scanContribs ⟨emptyParser, []⟩ n lines) ∧
    (mapGet (scanLines ⟨emptyParser, []⟩ lines).parser.elements n = none →
        mapGet (parseDTD lines).elements n = none ∧
        n ∉ (parseDTD lines).order) := by
  have hattrs := scanLines_attrs lines ⟨emptyParser, []⟩ n
  have hnil : elemAttrsNil (scanLines ⟨emptyParser, []⟩ lines).parser :=
    scanLines_attrsNil lines _ (by intro kv hkv; simp [emptyParser] at hkv)
  have hord : ordInv (scanLines ⟨emptyParser, []⟩ lines).parser :=
    scanLines_ordInv lines _ (by intro m hm; simp [emptyParser] at hm)
  have hinit : (mapGet (⟨emptyParser, []⟩ : ScanState).parser.attributes n).getD [] = [] := rfl
  rw [hinit, List.nil_append] at hattrs
  constructor
  · intro e he
    have hres : mapGet (parseDTD lines).elements n =
        mapGet (attachAttributes (scanLines ⟨emptyParser, []⟩ lines).parser) n := rfl
    rw [hres, mapGet_attachAttributes] at he
    cases hse : mapGet (scanLines ⟨emptyParser, []⟩ lines).parser.elements n with
    | none =>
      rw [hse] at he
      simp at he
    | some e0 =>
      rw [hse] at he
      simp only [Option.map_some'] at he
      have he0nil : e0.attributes = [] := hnil (n, e0) (mem_of_mapGet _ _ _ hse)
      injection he with he
      cases hsa : mapGet (scanLines ⟨emptyParser, []⟩ lines).parser.attributes n with
      | some a =>
        rw [hsa] at he hattrs
        rw [← he]
        show a = _
        exact hattrs
      | none =>
        rw [hsa] at he hattrs
        rw [← he, he0nil]
        exact hattrs
  · intro hnone
    constructor
    · show mapGet (attachAttributes _) n = none
      rw [mapGet_attachAttributes, hnone]
      rfl
    · intro hmem
      have hsome := hord n hmem
      rw [hnone] at hsome
      exact absurd hsome (by decide)

/-- Witness for C9: with attribute lists both before and after `b`'s
element declaration, `b`'s final attributes are both definitions in
encounter order; the name `w`, which has only an `<!ATTLIST>` and no
`<!ELEMENT>`, is absent from the element map and from the order. -/
theorem attlist_assembly_witness :
    mapGet (parseDTD c9Lines).elements (str "b") =
      some ⟨str "b", str "(#PCDATA)",
        [⟨str "x", str "CDATA", [], true⟩, ⟨str "y", str "CDATA", [], false⟩]⟩ ∧
    (⟨str "b", str "(#PCDATA)",
        [⟨str "x", str "CDATA", [], true⟩, ⟨str "y", str "CDATA", [], false⟩]⟩ :
        DTDElement).attributes = scanContribs ⟨emptyParser, []⟩ (str "b") c9Lines ∧
    mapGet (scanLines ⟨emptyParser, []⟩ c9Lines).parser.elements (str "w") = none ∧
    mapGet (parseDTD c9Lines).elements (str "w") = none ∧
    (str "w") ∉ (parseDTD c9Lines).order :=
  ⟨by decide,
   (attlist_assembly c9Lines (str "b")).1 _ (by decide),
   by decide,
   ((attlist_assembly c9Lines (str "w")).2 (by decide)).1,
   ((attlist_assembly c9Lines (str "w")).2 (by decide)).2⟩

/-- Witness for C6: a mixed-content element with one attribute gets no
child fields and a trailing text field. -/
theorem mixed_content_text_field_witness :
    goContains c6Para.content (str "#PCDATA") = true ∧
    parseContentModel gShapeGen c6Para.content = [] ∧
    structBodyLines gShapeGen c6Para =
      (str "XMLName xml.Name `xml:\"" ++ c6Para.name ++ str "\"`") ::
        (c6Para.attributes.map attrFieldLine ++
          [str "Text string `xml:\",chardata\"`"]) :=
  ⟨by decide,
   (mixed_content_text_field gShapeGen c6Para (by decide)).1,
   (mixed_content_text_field gShapeGen c6Para (by decide)).2⟩

end DtdToGo
